import Mathlib

/-!
Shallow embedding of the cultural-heritage mashup core (`impl.py`):
the Python value model for pandas cells, the entity model
(`Person`, `CulturalHeritageObject` and its ten subtypes, `Activity` and its
five subtypes), the two query-handler families, and the `BasicMashup` /
`AdvancedMashup` operations.  Backends are modelled at the interface boundary
the code itself depends on: a metadata handler is the family of result tables
its SPARQL queries return, a process handler is the SQLite database its SQL
queries read.
-/

/-- A Python scalar as it appears in a pandas row produced by the handlers:
a string value, the float NaN that pandas fills in for a binding that is
missing in this row while present elsewhere in the table, or Python `None`
(what `row.get` yields for a column absent from the whole table, and what
SQLite NULL becomes). -/
inductive PyV where
  | vstr (s : String)
  | vnan
  | vnone
deriving DecidableEq, Repr

/-- Python truthiness of such a value: `None` and `""` are falsy, any other
string is truthy, and the float NaN is truthy. -/
def pyTruthy : PyV → Bool
  | .vstr s => s ≠ ""
  | .vnan => true
  | .vnone => false

/-- Python `str()` applied to such a value: `str(None) = "None"`,
`str(float("nan")) = "nan"`. -/
def pyStr : PyV → String
  | .vstr s => s
  | .vnan => "nan"
  | .vnone => "None"

/-- `pd.notna`: true exactly on actual string values. -/
def pyNotna : PyV → Bool
  | .vstr _ => true
  | _ => false

/-- Python `a or b` on cell values (short-circuit on truthiness). -/
def pyOr (a b : PyV) : PyV := if pyTruthy a then a else b

/-- `row.get(col, default)`: the default applies only when the column is
absent from the table (`None` in our model), not when the cell is NaN. -/
def pyGetD (v d : PyV) : PyV := if v = .vnone then d else v

/-- A pandas row as the mashup reads it through `row.get`: an association
list from column names to cell values; a key absent from the list reads as
Python `None`. -/
def PRow := List (String × PyV)

instance : DecidableEq PRow := by unfold PRow; infer_instance

/-- `row.get(col)` with no default. -/
def rget (r : PRow) (k : String) : PyV :=
  match r.lookup k with
  | some v => v
  | none => .vnone

/-- A SQLite TEXT cell (`none` is NULL) as a Python value: `read_sql`
surfaces NULL as `None`. -/
def optToPy : Option String → PyV
  | some s => .vstr s
  | none => .vnone

/-- ASCII upper-casing of one character (`str.upper()`; the identifiers the
code classifies are ASCII). -/
def upperChar (c : Char) : Char :=
  if 'a' ≤ c ∧ c ≤ 'z' then Char.ofNat (c.toNat - 32) else c

/-- ASCII lower-casing of one character (`str.lower()` / SQLite LIKE
folding). -/
def lowerChar (c : Char) : Char :=
  if 'A' ≤ c ∧ c ≤ 'Z' then Char.ofNat (c.toNat + 32) else c

/-- A string lower-cased, as a character list. -/
def lowList (s : String) : List Char := s.toList.map lowerChar

/-- Python `needle in hay` substring test, on character lists. -/
def containsChars (hay needle : List Char) : Bool :=
  hay.tails.any (fun t => needle.isPrefixOf t)

/-- SQL `cell LIKE '%pat%'` on a nullable TEXT cell: NULL never matches;
matching is case-insensitive substring containment (SQLite default LIKE is
ASCII case-insensitive; the `%`/`_` wildcard escapes inside the user string
are not modelled because no claim depends on them). -/
def likeMatch (cell : Option String) (pat : String) : Bool :=
  match cell with
  | some s => containsChars (lowList s) (lowList pat)
  | none => false

/-- Byte-order (memcmp-style) string comparison used by SQLite for
TEXT `>=` / `<=`; on the code points of the two strings this agrees with
UTF-8 byte order. -/
def charsLe : List Char → List Char → Bool
  | x :: xs, y :: ys => if x = y then charsLe xs ys else decide (x < y)
  | [], _ => true
  | _, [] => false

/-- `a <= b` on strings, SQLite TEXT collation. -/
def strLe (a b : String) : Bool := charsLe a.toList b.toList

/-! ## Entity model (`impl.py` lines 20-169) -/

/-- The ten recognized `CulturalHeritageObject` subtypes plus the base
class itself (`CulturalHeritageObject`), used as a classification tag on
the single payload structure. -/
inductive ObjKind where
  | nauticalChart
  | manuscriptPlate
  | manuscriptVolume
  | printedVolume
  | printedMaterial
  | herbarium
  | specimen
  | painting
  | model
  | map
  | base
deriving DecidableEq, Repr

/-- `Person(id, name)`: plain data holder; the code never defines equality
or hashing for it, so Python-level equality is object identity. -/
structure PersonE where
  pid : PyV
  pname : PyV
deriving DecidableEq, Repr

/-- `CulturalHeritageObject` payload.  `owner` is a `String` because
`__init__` stores `str(owner)` unconditionally; every other field is stored
as passed.  The `name` keyword parameter of `__init__` is accepted but never
stored, so it does not appear here. -/
structure CHObj where
  kind : ObjKind
  oid : PyV
  title : PyV
  date : PyV
  owner : String
  place : PyV
  authorId : PyV
  authorName : PyV
  hasAuthor : List PersonE
deriving DecidableEq, Repr

/-- `CulturalHeritageObject.__init__`: coerces `owner` through `str()`;
`hasAuthor=None` (or any non-Person, non-list value) becomes `[]`. -/
def mkCHObj (kind : ObjKind) (oid title date ownerArg place authorId authorName : PyV)
    (hasAuthor : Option (List PersonE)) : CHObj :=
  ⟨kind, oid, title, date, pyStr ownerArg, place, authorId, authorName, hasAuthor.getD []⟩

/-- `getOwner()`. -/
def CHObj.getOwner (o : CHObj) : String := o.owner

/-- The five recognized `Activity` subtypes plus the undifferentiated base
`Activity` class used as fallback for unrecognized type tags. -/
inductive ActKind where
  | base
  | acquisition
  | processing
  | modelling
  | optimising
  | exporting
deriving DecidableEq, Repr

/-- What an `Activity.refersTo` field can hold in the code: `None`, a
`Person`, a `CulturalHeritageObject`, or (in
`getActivitiesOnObjectsAuthoredBy`) the bare object-id string. -/
inductive RefTarget where
  | rnone
  | rperson (p : PersonE)
  | robj (o : CHObj)
  | rstr (s : String)
deriving DecidableEq, Repr

/-- `Activity` payload (`stop` models the Python attribute `end`, a reserved
word in Lean).  `technique` is meaningful only when `kind = acquisition`;
for the other kinds the Python object simply has no such attribute, modelled
here as `None`. -/
structure ActivityE where
  kind : ActKind
  refersTo : RefTarget
  institute : PyV
  person : PyV
  tool : List String
  start : PyV
  stop : PyV
  technique : PyV
deriving DecidableEq, Repr

/-- `Activity.__init__` tool normalization: a single string becomes a
one-element list, `None`/NaN becomes `[]` (the `type(tool) == list` branch
is taken only by `getActivitiesUsingTool`, which passes a list of the
strings it matched). -/
def normToolPv : PyV → List String
  | .vstr s => [s]
  | _ => []

/-- What `getEntityById` can return besides `None`. -/
inductive Entity where
  | personE (p : PersonE)
  | chObjE (o : CHObj)
deriving DecidableEq, Repr

/-! ## Process-data layer (`ProcessDataQueryHandler`, lines 723-926) -/

/-- A row of one of the four technique-less SQLite tables
(`Processing`/`Modelling`/`Optimising`/`Exporting`); every column is
nullable TEXT. -/
structure SqlRow where
  objectId : Option String
  institute : Option String
  person : Option String
  tool : Option String
  startDate : Option String
  endDate : Option String
deriving DecidableEq, Repr

/-- A row of the `Acquisition` table: the same columns plus `technique`. -/
structure AcqRow extends SqlRow where
  technique : Option String
deriving DecidableEq, Repr

/-- The relational provenance store: the five fixed tables. -/
structure ProcDB where
  acquisition : List AcqRow
  processing : List SqlRow
  modelling : List SqlRow
  optimising : List SqlRow
  exporting : List SqlRow
deriving DecidableEq, Repr

/-- A row of the five-way union shape every `ProcessDataQueryHandler` query
returns: the common columns, `technique` (NULL outside Acquisition), and the
literal type tag.  (The synthesized `id` column of the started-after /
ended-before queries is omitted: the mashup only writes it into a set it
never reads.) -/
structure UnionRow where
  objectId : Option String
  institute : Option String
  person : Option String
  technique : Option String
  tool : Option String
  startDate : Option String
  endDate : Option String
  typ : String
deriving DecidableEq, Repr

/-- An `Acquisition` row in the union shape. -/
def acqToUnion (r : AcqRow) : UnionRow :=
  ⟨r.objectId, r.institute, r.person, r.technique, r.tool, r.startDate, r.endDate, "Acquisition"⟩

/-- A technique-less row in the union shape, with its literal tag. -/
def sqlToUnion (tag : String) (r : SqlRow) : UnionRow :=
  ⟨r.objectId, r.institute, r.person, none, r.tool, r.startDate, r.endDate, tag⟩

/-- The `UNION ALL` of the five tables in the fixed order the SQL text
lists them. -/
def unionAll (db : ProcDB) : List UnionRow :=
  db.acquisition.map acqToUnion
    ++ db.processing.map (sqlToUnion "Processing")
    ++ db.modelling.map (sqlToUnion "Modelling")
    ++ db.optimising.map (sqlToUnion "Optimising")
    ++ db.exporting.map (sqlToUnion "Exporting")

/-- `ProcessDataQueryHandler.getAllActivities` (the successful path; the
`sqlite3.Error` path degrades to an empty table, see `hAllActivitiesB`). -/
def hGetAllActivities (db : ProcDB) : List UnionRow := unionAll db

/-- `getActivitiesByResponsibleInstitution`: per-table
`responsible_institute LIKE '%s%'`, unioned. -/
def hByInstitution (db : ProcDB) (s : String) : List UnionRow :=
  (unionAll db).filter (fun r => likeMatch r.institute s)

/-- `getActivitiesByResponsiblePerson`: per-table
`responsible_person LIKE '%s%'`, unioned. -/
def hByPerson (db : ProcDB) (s : String) : List UnionRow :=
  (unionAll db).filter (fun r => likeMatch r.person s)

/-- The SQL predicate `start_date >= d AND start_date <> ''`
(NULL compares to NULL, hence excluded). -/
def keepStart (d : String) (v : Option String) : Bool :=
  match v with
  | some s => decide (s ≠ "") && strLe d s
  | none => false

/-- The SQL predicate `end_date <= d AND end_date <> ''`. -/
def keepEnd (d : String) (v : Option String) : Bool :=
  match v with
  | some s => decide (s ≠ "") && strLe s d
  | none => false

/-- `getActivitiesStartedAfter`. -/
def hStartedAfter (db : ProcDB) (d : String) : List UnionRow :=
  (unionAll db).filter (fun r => keepStart d r.startDate)

/-- `getActivitiesEndedBefore`. -/
def hEndedBefore (db : ProcDB) (d : String) : List UnionRow :=
  (unionAll db).filter (fun r => keepEnd d r.endDate)

/-- `getAcquisitionsByTechnique` (handler level):
`SELECT * FROM acquisition WHERE technique LIKE ?`, then a literal
`type = "Acquisition"` column is appended (left implicit here since every
row is an Acquisition row). -/
def hAcqByTech (db : ProcDB) (t : String) : List AcqRow :=
  db.acquisition.filter (fun r => likeMatch r.technique t)

/-! ## Backend-fault behaviour of the handler layer (claim C1)

The process handler wraps every query in `try ... except sqlite3.Error`,
returning an empty table on failure.  The SPARQL side differs per method:
`QueryHandler.getById` checks the HTTP status but lets a transport fault
from `requests.get` escape, and `MetadataQueryHandler._execute_query`
(SPARQLWrapper) has no handler at all, so both a non-success status and a
transport fault escape it. -/

/-- Exceptions that escape core operations. -/
inductive PyErr where
  | indexError
  | valueError
  | httpFault
  | transport
deriving DecidableEq, Repr

/-- Outcome of one HTTP round trip to the SPARQL endpoint: a transport
fault (`requests` raising, e.g. connection refused), or a response with a
status code and, when the body parses, its bindings table. -/
inductive HttpResult where
  | fault
  | resp (status : Nat) (rows : List PRow)

/-- `QueryHandler.getById` with the backend round trip abstracted:
a transport fault propagates (no `try` around `requests.get`), a
non-success status degrades to the empty table, a 200 response yields one
pandas row per binding. -/
def qhGetById : HttpResult → Except PyErr (List PRow)
  | .fault => .error .transport
  | .resp st rows => if st ≠ 200 then .ok [] else .ok rows

/-- `MetadataQueryHandler._execute_query`: SPARQLWrapper raises on a
non-success status and on a transport fault; only a successful response
yields a table (empty bindings give an empty DataFrame). -/
def mqExecuteQuery : HttpResult → Except PyErr (List PRow)
  | .fault => .error .transport
  | .resp st rows => if st ≠ 200 then .error .httpFault else .ok rows

/-- A process-handler query against a backend that may fail
(`sqlite3.Error` is caught and degrades to the empty table). -/
def hAllActivitiesB : Except Unit ProcDB → List UnionRow
  | .error _ => []
  | .ok db => unionAll db

/-- `getActivitiesStartedAfter` against a fallible backend. -/
def hStartedAfterB (b : Except Unit ProcDB) (d : String) : List UnionRow :=
  match b with
  | .error _ => []
  | .ok db => hStartedAfter db d

/-! ## Metadata-handler interface

A metadata handler is modelled by the result tables its fixed SPARQL
queries return.  `getAllPeople` selects two mandatory variables, so both
columns are present in every row; `getAllCulturalHeritageObjects` (and the
owner-filtered variant) selects `?type_name` via a BIND over the mandatory
`?type` pattern plus seven optional bindings. -/

/-- A row of the `getAllPeople` result (`?authorName ?authorId`, both
mandatory patterns, hence always bound). -/
structure PeopleRow where
  authorId : String
  authorName : String
deriving DecidableEq, Repr

/-- A row of the `getAllCulturalHeritageObjects`-shaped results: the seven
optional bindings as cell values and the always-bound type tag. -/
structure ObjRow where
  rid : PyV
  title : PyV
  date : PyV
  owner : PyV
  place : PyV
  authorId : PyV
  authorName : PyV
  typeName : String
deriving DecidableEq, Repr

/-- A registered `MetadataQueryHandler`, abstracted to the tables its
queries return.  `byId` is the `getById` table for a given identifier
(generic rows: the two `getById` queries have different column sets);
`authoredBy` is the `getCulturalHeritageObjectsAuthoredBy` table, of which
the advanced mashup reads only the mandatory `?id` column. -/
structure MetaHandler where
  byId : String → List PRow
  allPeople : List PeopleRow
  allObjects : List ObjRow
  authoredBy : String → List ObjRow

/-! ## BasicMashup (`impl.py` lines 929-1479) -/

/-- `id_string.split(":")[0]`: the segment before the first colon. -/
def beforeColon (cs : List Char) : List Char := cs.takeWhile (fun c => c ≠ ':')

/-- The identifier-scheme classification in `getEntityById`:
`id_string.split(":")[0].upper() in ["VIAF", "ULAN"]`, guarded by
`":" in id_string`. -/
def isPersonScheme (idStr : String) : Bool :=
  if idStr.toList.contains ':' then
    let p := (beforeColon idStr.toList).map upperChar
    p = "VIAF".toList || p = "ULAN".toList
  else false

/-- The handler loop of `getEntityById`: try each handler in registration
order, stop at the first non-empty table, and take its first row
(`df.iloc[0]`). -/
def firstNonEmptyRow : List (List PRow) → Option PRow
  | [] => none
  | [] :: ts => firstNonEmptyRow ts
  | (r :: _) :: _ => some r

/-- The person branch of `getEntityById`:
`Person(id=id_string, name=row.get("authorName") or row.get("label") or "Unknown")`. -/
def mkPersonFromIdRow (r : PRow) (idStr : String) : PersonE :=
  ⟨.vstr idStr, pyOr (rget r "authorName") (pyOr (rget r "label") (.vstr "Unknown"))⟩

/-- The object branch of `getEntityById`: the stored id is
`row.get("CulturalObject") or id_string` — the subject URI when that
binding is truthy, the queried identifier only otherwise. -/
def mkObjFromIdRow (r : PRow) (idStr : String) : CHObj :=
  mkCHObj .base (pyOr (rget r "CulturalObject") (.vstr idStr))
    (pyOr (rget r "label") (.vstr "Unknown")) (rget r "date") (rget r "owner")
    (rget r "place") (rget r "authorId") (rget r "authorName") none

/-- `BasicMashup.getEntityById`. -/
def getEntityById (mds : List MetaHandler) (idStr : String) : Option Entity :=
  match firstNonEmptyRow (mds.map (fun md => md.byId idStr)) with
  | none => none
  | some r =>
    if isPersonScheme idStr then some (.personE (mkPersonFromIdRow r idStr))
    else some (.chObjE (mkObjFromIdRow r idStr))

/-- `Person(id=row["authorId"], name=row["authorName"])`. -/
def personOfRow (r : PeopleRow) : PersonE := ⟨.vstr r.authorId, .vstr r.authorName⟩

/-- One step of the `getAllPeople` accumulation: append the person and mark
the id unless the id was already processed. -/
def peopleStep (acc : List PersonE × List String) (r : PeopleRow) :
    List PersonE × List String :=
  if acc.2.contains r.authorId then acc
  else (acc.1 ++ [personOfRow r], acc.2 ++ [r.authorId])

/-- The per-handler loop of `getAllPeople`; the accumulator (result list and
processed-id set) persists across handlers. -/
def basicGetAllPeopleAux (acc : List PersonE × List String) :
    List MetaHandler → List PersonE × List String
  | [] => acc
  | md :: rest => basicGetAllPeopleAux (md.allPeople.foldl peopleStep acc) rest

/-- `BasicMashup.getAllPeople`. -/
def basicGetAllPeople (mds : List MetaHandler) : List PersonE :=
  (basicGetAllPeopleAux ([], []) mds).1

/-- The `class_map` dictionary of `getAllCulturalHeritageObjects`: the ten
recognized type tags. -/
def classMap : String → Option ObjKind
  | "NauticalChart" => some .nauticalChart
  | "ManuscriptPlate" => some .manuscriptPlate
  | "ManuscriptVolume" => some .manuscriptVolume
  | "PrintedVolume" => some .printedVolume
  | "PrintedMaterial" => some .printedMaterial
  | "Herbarium" => some .herbarium
  | "Specimen" => some .specimen
  | "Painting" => some .painting
  | "Model" => some .model
  | "Map" => some .map
  | _ => none

/-- The object construction inside `getAllCulturalHeritageObjects`:
`owner`/`author_id` are re-stringified when notna, `author_name` is kept
raw when notna; `hasAuthor` is built only when both author fields are
truthy; `author_id`/`author_name` constructor parameters are NOT passed
(so they default to `None`). -/
def mkObjFromAllRow (k : ObjKind) (r : ObjRow) (oid : String) : CHObj :=
  let ownerArg : PyV := if pyNotna r.owner then .vstr (pyStr r.owner) else .vnone
  let aid : PyV := if pyNotna r.authorId then .vstr (pyStr r.authorId) else .vnone
  let aname : PyV := if pyNotna r.authorName then r.authorName else .vnone
  let ha : Option (List PersonE) :=
    if pyTruthy aid && pyTruthy aname then some [⟨aid, aname⟩] else none
  mkCHObj k (.vstr oid) (pyGetD r.title (.vstr "")) r.date ownerArg r.place
    .vnone .vnone ha

/-- One step of the `getAllCulturalHeritageObjects` accumulation: skip when
the (stringified) id is empty or already processed; otherwise reconstruct
and mark processed only when the type tag is recognized. -/
def objStep (acc : List CHObj × List String) (r : ObjRow) :
    List CHObj × List String :=
  if pyStr r.rid = "" || acc.2.contains (pyStr r.rid) then acc
  else
    match classMap r.typeName with
    | some k => (acc.1 ++ [mkObjFromAllRow k r (pyStr r.rid)], acc.2 ++ [pyStr r.rid])
    | none => acc

/-- The per-handler loop of `getAllCulturalHeritageObjects`. -/
def basicGetAllCHOAux (acc : List CHObj × List String) :
    List MetaHandler → List CHObj × List String
  | [] => acc
  | md :: rest => basicGetAllCHOAux (md.allObjects.foldl objStep acc) rest

/-- `BasicMashup.getAllCulturalHeritageObjects`. -/
def basicGetAllCHO (mds : List MetaHandler) : List CHObj :=
  (basicGetAllCHOAux ([], []) mds).1

/-! ## Activity reconstruction in the mashup -/

/-- The `activity_classes` dictionary lookup with base `Activity`
fallback. -/
def actClass : String → ActKind
  | "Acquisition" => .acquisition
  | "Processing" => .processing
  | "Modelling" => .modelling
  | "Optimising" => .optimising
  | "Exporting" => .exporting
  | _ => .base

/-- `str(row.get("object_id"))` for a union row. -/
def oidStr (r : UnionRow) : String := pyStr (optToPy r.objectId)

/-- `getEntityById`'s result as a `refersTo` field. -/
def entityToRef : Option Entity → RefTarget
  | none => .rnone
  | some (.personE p) => .rperson p
  | some (.chObjE o) => .robj o

/-- The shared activity construction of `getAllActivities`,
`getActivitiesByResponsibleInstitution/Person`, `getActivitiesUsingTool`
and `getActivitiesStartedAfter/EndedBefore`: resolve `object_id` through
`getEntityById`, dispatch the subtype on the row's type tag, and pass
`technique` only to `Acquisition`. -/
def mkActivityFromRow (mds : List MetaHandler) (r : UnionRow) : ActivityE :=
  let k := actClass r.typ
  { kind := k
    refersTo := entityToRef (getEntityById mds (oidStr r))
    institute := optToPy r.institute
    person := optToPy r.person
    tool := normToolPv (optToPy r.tool)
    start := optToPy r.startDate
    stop := optToPy r.endDate
    technique := if k = .acquisition then optToPy r.technique else .vnone }

/-- The row loop shared by the fan-out activity methods. -/
def rowsToActivities (mds : List MetaHandler) (rows : List UnionRow) : List ActivityE :=
  rows.map (mkActivityFromRow mds)

/-- `BasicMashup.getAllActivities`: one handler at a time, in registration
order (the `if not self.processQuery: return []` guard coincides with the
empty-list case). -/
def basicGetAllActivities (mds : List MetaHandler) : List ProcDB → List ActivityE
  | [] => []
  | db :: rest =>
    rowsToActivities mds (hGetAllActivities db) ++ basicGetAllActivities mds rest

/-- `BasicMashup.getActivitiesByResponsibleInstitution`. -/
def basicByInstitution (mds : List MetaHandler) (s : String) :
    List ProcDB → List ActivityE
  | [] => []
  | db :: rest =>
    rowsToActivities mds (hByInstitution db s) ++ basicByInstitution mds s rest

/-- `BasicMashup.getActivitiesByResponsiblePerson`. -/
def basicByPerson (mds : List MetaHandler) (s : String) :
    List ProcDB → List ActivityE
  | [] => []
  | db :: rest =>
    rowsToActivities mds (hByPerson db s) ++ basicByPerson mds s rest

/-- `BasicMashup.getActivitiesStartedAfter` (the `processed_ids` set it
fills is never read, so it does not appear). -/
def basicStartedAfter (mds : List MetaHandler) (d : String) :
    List ProcDB → List ActivityE
  | [] => []
  | db :: rest =>
    rowsToActivities mds (hStartedAfter db d) ++ basicStartedAfter mds d rest

/-- `BasicMashup.getActivitiesEndedBefore`. -/
def basicEndedBefore (mds : List MetaHandler) (d : String) :
    List ProcDB → List ActivityE
  | [] => []
  | db :: rest =>
    rowsToActivities mds (hEndedBefore db d) ++ basicEndedBefore mds d rest

/-- The Python-side tool filter of `getActivitiesUsingTool`:
`tool_name.lower() in t.lower()` over the row's tool cell (a string or
NULL; the DataFrame never holds a list here). -/
def toolRowMatches (r : UnionRow) (t : String) : Bool :=
  match r.tool with
  | some s => containsChars (lowList s) (lowList t)
  | none => false

/-- `BasicMashup.getActivitiesUsingTool`: consults only
`processQuery[0]`, fetches its FULL activity table and filters in
Python. -/
def basicUsingTool (mds : List MetaHandler) (procs : List ProcDB) (t : String) :
    List ActivityE :=
  match procs with
  | [] => []
  | db :: _ =>
    rowsToActivities mds ((hGetAllActivities db).filter (fun r => toolRowMatches r t))

/-- The activity built by `getAcquisitionsByTechnique` for one row: when
`getEntityById` yields a `Person` or nothing, a placeholder
`CulturalHeritageObject(id=object_id, title="", date=None, owner=None,
place=None)` is fabricated for `refersTo`. -/
def mkAcqByTechActivity (mds : List MetaHandler) (r : AcqRow) : ActivityE :=
  let aid : PyV := optToPy r.objectId
  let cho : CHObj :=
    match getEntityById mds (pyStr aid) with
    | some (.chObjE o) => o
    | _ => mkCHObj .base aid (.vstr "") .vnone .vnone .vnone .vnone .vnone none
  { kind := .acquisition
    refersTo := .robj cho
    institute := optToPy r.institute
    person := optToPy r.person
    tool := normToolPv (optToPy r.tool)
    start := optToPy r.startDate
    stop := optToPy r.endDate
    technique := optToPy r.technique }

/-- One row of the `getAcquisitionsByTechnique` accumulation: kept only
when the raw `object_id` cell is truthy and not yet processed. -/
def acqTechStep (mds : List MetaHandler) (acc : List ActivityE × List PyV)
    (r : AcqRow) : List ActivityE × List PyV :=
  if pyTruthy (optToPy r.objectId) && !(acc.2.contains (optToPy r.objectId)) then
    (acc.1 ++ [mkAcqByTechActivity mds r], acc.2 ++ [optToPy r.objectId])
  else acc

/-- The per-handler loop of `getAcquisitionsByTechnique`: it iterates over
ALL registered process handlers, with the processed-id set shared across
them. -/
def basicAcqByTechAux (mds : List MetaHandler) (t : String)
    (acc : List ActivityE × List PyV) : List ProcDB → List ActivityE × List PyV
  | [] => acc
  | db :: rest =>
    basicAcqByTechAux mds t ((hAcqByTech db t).foldl (acqTechStep mds) acc) rest

/-- `BasicMashup.getAcquisitionsByTechnique`. -/
def basicAcqByTech (mds : List MetaHandler) (procs : List ProcDB) (t : String) :
    List ActivityE :=
  (basicAcqByTechAux mds t ([], []) procs).1

/-! ## AdvancedMashup (lines 1482-1729) -/

/-- The activity built by `getActivitiesOnObjectsAuthoredBy`: `refersTo`
receives the bare `str(row.get("object_id"))` STRING — `getEntityById` is
never consulted. -/
def mkAuthoredActivity (r : UnionRow) : ActivityE :=
  let k := actClass r.typ
  { kind := k
    refersTo := .rstr (oidStr r)
    institute := optToPy r.institute
    person := optToPy r.person
    tool := normToolPv (optToPy r.tool)
    start := optToPy r.startDate
    stop := optToPy r.endDate
    technique := if k = .acquisition then optToPy r.technique else .vnone }

/-- `AdvancedMashup.getActivitiesOnObjectsAuthoredBy`: resolve the authored
object ids through the FIRST metadata handler (an `IndexError` escapes when
none is registered — the `?id` variable is mandatory in that query, so the
"id column missing" guard coincides with the empty-table guard), then fan
out across all process handlers keeping rows whose `object_id` is in the
set. -/
def advOnObjectsAuthoredBy (mds : List MetaHandler) (procs : List ProcDB)
    (aid : String) : Except PyErr (List ActivityE) :=
  match mds with
  | [] => .error .indexError
  | md :: _ =>
    if (md.authoredBy aid).isEmpty then .ok []
    else
      .ok (procs.flatMap (fun db =>
        ((hGetAllActivities db).filter (fun r =>
          ((md.authoredBy aid).map (fun r2 => pyStr r2.rid)).contains (oidStr r))).map
          mkAuthoredActivity))

/-- The object construction of `getObjectsHandledByResponsiblePerson`
(and its institution sibling): dictionary lookup with BASE-CLASS fallback
for unrecognized tags, raw row cells passed through, `author_id` /
`author_name` passed, `hasAuthor` not passed. -/
def mkHandledObj (r : ObjRow) : CHObj :=
  mkCHObj ((classMap r.typeName).getD .base) r.rid r.title r.date r.owner
    r.place r.authorId r.authorName none

/-- `AdvancedMashup.getObjectsHandledByResponsiblePerson`: collect the
object ids of person-matching activities across ALL process handlers, then
select rows of the FIRST metadata handler's full object listing
(`IndexError` escapes when none is registered). -/
def advObjectsHandledByPerson (mds : List MetaHandler) (procs : List ProcDB)
    (pname : String) : Except PyErr (List CHObj) :=
  match mds with
  | [] => .error .indexError
  | md :: _ =>
    if md.allObjects.isEmpty then .ok []
    else .ok ((md.allObjects.filter (fun r =>
      (procs.flatMap (fun db => (hByPerson db pname).map oidStr)).contains
        (pyStr r.rid))).map mkHandledObj)

/-! ## The acquired-in-timeframe author query -/

/-- Splitting on `"-"`, on character lists. -/
def splitOnDash : List Char → List (List Char)
  | [] => [[]]
  | c :: rest =>
    match splitOnDash rest with
    | [] => [[c]]
    | h :: t => if c = '-' then [] :: h :: t else (c :: h) :: t

/-- One decimal digit. -/
def digit? (c : Char) : Option Nat :=
  if '0' ≤ c ∧ c ≤ '9' then some (c.toNat - '0'.toNat) else none

/-- A non-empty all-digit character list as a number. -/
def natOfChars (cs : List Char) : Option Nat :=
  match cs with
  | [] => none
  | _ =>
    cs.foldl
      (fun acc c =>
        match acc, digit? c with
        | some a, some d => some (a * 10 + d)
        | _, _ => none)
      (some 0)

/-- Strict ISO `YYYY-MM-DD` parse to a comparable day key
(`datetime.fromisoformat` raises on anything else; `pd.to_datetime(...,
errors="coerce")` yields NaT, i.e. `none`).  Comparing the keys agrees with
comparing the dates. -/
def parseIso (s : String) : Option Nat :=
  match splitOnDash s.toList with
  | [ys, ms, ds] =>
    if ys.length = 4 && ms.length = 2 && ds.length = 2 then
      match natOfChars ys, natOfChars ms, natOfChars ds with
      | some y, some m, some d =>
        if 1 ≤ m && m ≤ 12 && 1 ≤ d && d ≤ 31 then some (y * 10000 + m * 100 + d)
        else none
      | _, _, _ => none
    else none
  | _ => none

/-- `start_dt >= start_dt` after coercion: an unparseable or NULL date never
compares true (NaT semantics). -/
def dateKeyGe (v : Option String) (k : Nat) : Bool :=
  match v with
  | some s =>
    match parseIso s with
    | some n => decide (k ≤ n)
    | none => false
  | none => false

/-- `end_dt <= end_dt` after coercion. -/
def dateKeyLe (v : Option String) (k : Nat) : Bool :=
  match v with
  | some s =>
    match parseIso s with
    | some n => decide (n ≤ k)
    | none => false
  | none => false

/-- `all_started_ids`: over all process handlers, the (stringified)
object ids of Acquisition-tagged rows whose start date parsed and is on or
after the window start. -/
def timeFrameStartedIds (procs : List ProcDB) (sk : Nat) : List String :=
  procs.flatMap (fun db =>
    ((unionAll db).filter (fun r => r.typ = "Acquisition" && dateKeyGe r.startDate sk)).map
      oidStr)

/-- `all_ended_ids`: symmetric with the window end. -/
def timeFrameEndedIds (procs : List ProcDB) (ek : Nat) : List String :=
  procs.flatMap (fun db =>
    ((unionAll db).filter (fun r => r.typ = "Acquisition" && dateKeyLe r.endDate ek)).map
      oidStr)

/-- One author per selected metadata row:
`Person(str(author_id), "" if author_name is NaN/None else str(author_name))`. -/
def mkTimeAuthor (r : ObjRow) : PersonE :=
  ⟨.vstr (pyStr r.authorId), .vstr (if pyNotna r.authorName then pyStr r.authorName else "")⟩

/-- `AdvancedMashup.getAuthorsOfObjectsAcquiredInTimeFrame`:
`datetime.fromisoformat` raises `ValueError` on a malformed bound;
`self.metadataQuery[0]` raises `IndexError` when no metadata handler is
registered.  The Python code collects the constructed `Person` objects in
a `set`, but `Person` defines neither `__eq__` nor `__hash__`, so every
(freshly constructed) element is kept; the set only forgets the order,
which this model fixes as metadata row order. -/
def advTimeFrame (mds : List MetaHandler) (procs : List ProcDB)
    (s e : String) : Except PyErr (List PersonE) :=
  match parseIso s, parseIso e with
  | some sk, some ek =>
    match mds with
    | [] => .error .indexError
    | md :: _ =>
      .ok ((md.allObjects.filter (fun r =>
        ((timeFrameStartedIds procs sk).filter
          (fun i => (timeFrameEndedIds procs ek).contains i)).contains
          (pyStr r.rid))).map mkTimeAuthor)
  | _, _ => .error .valueError

/-! ## Theorems -/

/-- C9: `getActivitiesStartedAfter(d)` returns exactly the union-table rows
whose `start_date` is non-empty and lexicographically at least `d`
(excluding NULL and empty dates), and `getActivitiesEndedBefore(d)` exactly
those whose `end_date` is non-empty and at most `d`. -/
theorem spec_c9_started_ended_filter (db : ProcDB) (d : String) (r : UnionRow) :
    (r ∈ hStartedAfter db d ↔
      r ∈ unionAll db ∧ ∃ s, r.startDate = some s ∧ s ≠ "" ∧ strLe d s = true) ∧
    (r ∈ hEndedBefore db d ↔
      r ∈ unionAll db ∧ ∃ s, r.endDate = some s ∧ s ≠ "" ∧ strLe s d = true) := by
  constructor
  · rw [hStartedAfter, List.mem_filter]
    constructor
    · rintro ⟨hm, hf⟩
      refine ⟨hm, ?_⟩
      unfold keepStart at hf
      cases hv : r.startDate with
      | none => rw [hv] at hf; exact absurd hf (by simp)
      | some s =>
        rw [hv] at hf
        simp only [Bool.and_eq_true, decide_eq_true_eq] at hf
        exact ⟨s, rfl, hf.1, hf.2⟩
    · rintro ⟨hm, s, hv, hne, hle⟩
      refine ⟨hm, ?_⟩
      unfold keepStart
      rw [hv]
      simp [hne, hle]
  · rw [hEndedBefore, List.mem_filter]
    constructor
    · rintro ⟨hm, hf⟩
      refine ⟨hm, ?_⟩
      unfold keepEnd at hf
      cases hv : r.endDate with
      | none => rw [hv] at hf; exact absurd hf (by simp)
      | some s =>
        rw [hv] at hf
        simp only [Bool.and_eq_true, decide_eq_true_eq] at hf
        exact ⟨s, rfl, hf.1, hf.2⟩
    · rintro ⟨hm, s, hv, hne, hle⟩
      refine ⟨hm, ?_⟩
      unfold keepEnd
      rw [hv]
      simp [hne, hle]

/-- A metadata handler whose full object listing has one row lacking the
owner binding (used to witness claim C10). -/
def mdNoOwner : MetaHandler where
  byId := fun _ => []
  allPeople := []
  allObjects := [⟨.vstr "obj1", .vstr "T", .vnone, .vnone, .vnone, .vnone, .vnone, "Painting"⟩]
  authoredBy := fun _ => []

/-- C10: the `CulturalHeritageObject` constructor coerces `owner` through
`str()`, so an object constructed with `owner=None` — as happens in
`getAllCulturalHeritageObjects` when the owner binding is absent from the
result row — answers `getOwner()` with the literal string `"None"`. -/
theorem spec_c10_owner_str_none :
    (∀ (k : ObjKind) (oid title date place aid an : PyV)
        (ha : Option (List PersonE)),
      (mkCHObj k oid title date .vnone place aid an ha).getOwner = "None") ∧
    ∃ o, basicGetAllCHO [mdNoOwner] = [o] ∧ o.getOwner = "None" := by
  constructor
  · intro k oid title date place aid an ha
    rfl
  · exact ⟨_, rfl, rfl⟩


/-- C1 counterexample: a transport fault does NOT degrade to an empty table
in `MetadataQueryHandler._execute_query` — the exception propagates to the
caller, contradicting the claim that every handler operation returns an
empty table on any backend fault. -/
theorem spec_c1_counterexample :
    mqExecuteQuery .fault = .error .transport ∧
    mqExecuteQuery .fault ≠ .ok [] :=
  ⟨rfl, fun h => Except.noConfusion h⟩

/-- C1 (amended): the degrade-to-empty policy holds only partially.
`QueryHandler.getById` returns an empty table on a non-success HTTP status
but propagates a transport fault; `MetadataQueryHandler._execute_query`
propagates both fault kinds (no handler at all); the
`ProcessDataQueryHandler` operations do return an empty table on a caught
backend error; and `getAuthorsOfObjectsAcquiredInTimeFrame` raises
`ValueError` on a malformed date bound before touching any backend. -/
theorem spec_c1_amended :
    (∀ (st : Nat) (rows : List PRow), st ≠ 200 → qhGetById (.resp st rows) = .ok []) ∧
    qhGetById .fault = .error .transport ∧
    (∀ (st : Nat) (rows : List PRow), st ≠ 200 →
      mqExecuteQuery (.resp st rows) = .error .httpFault) ∧
    mqExecuteQuery .fault = .error .transport ∧
    hAllActivitiesB (.error ()) = [] ∧
    (∀ d, hStartedAfterB (.error ()) d = []) ∧
    (∀ (mds : List MetaHandler) (procs : List ProcDB) (s e : String),
      parseIso s = none → advTimeFrame mds procs s e = .error .valueError) := by
  refine ⟨?_, rfl, ?_, rfl, rfl, fun _ => rfl, ?_⟩
  · intro st rows h
    simp [qhGetById, h]
  · intro st rows h
    simp [mqExecuteQuery, h]
  · intro mds procs s e h
    unfold advTimeFrame
    rw [h]

/-- C1 witness: the amended behaviour evaluated at concrete inputs. -/
theorem spec_c1_witness :
    qhGetById (.resp 500 []) = .ok [] ∧
    mqExecuteQuery (.resp 500 []) = .error .httpFault ∧
    advTimeFrame [] [] "not-a-date" "2020-01-01" = .error .valueError :=
  ⟨spec_c1_amended.1 500 [] (by decide),
   spec_c1_amended.2.2.1 500 [] (by decide),
   spec_c1_amended.2.2.2.2.2.2 [] [] "not-a-date" "2020-01-01" (by decide)⟩

/-- `firstNonEmptyRow` finds nothing exactly when every table is empty. -/
theorem firstNonEmptyRow_eq_none_iff (ts : List (List PRow)) :
    firstNonEmptyRow ts = none ↔ ∀ t ∈ ts, t = [] := by
  induction ts with
  | nil => simp [firstNonEmptyRow]
  | cons t rest ih =>
    cases t with
    | nil => simpa [firstNonEmptyRow] using ih
    | cons r rs => simp [firstNonEmptyRow]

/-- `getEntityById` when no handler produced a row. -/
theorem getEntityById_none_case (mds : List MetaHandler) (idStr : String)
    (h : firstNonEmptyRow (mds.map (fun md => md.byId idStr)) = none) :
    getEntityById mds idStr = none := by
  unfold getEntityById
  rw [h]

/-- `getEntityById` when some handler produced a first row. -/
theorem getEntityById_some_case (mds : List MetaHandler) (idStr : String) (r : PRow)
    (h : firstNonEmptyRow (mds.map (fun md => md.byId idStr)) = some r) :
    getEntityById mds idStr =
      if isPersonScheme idStr then some (.personE (mkPersonFromIdRow r idStr))
      else some (.chObjE (mkObjFromIdRow r idStr)) := by
  unfold getEntityById
  rw [h]

/-- C8: `getEntityById` tries the registered metadata handlers in
registration order and keeps the first non-empty result (a handler with an
empty table is skipped, a handler with a non-empty table settles the
outcome); it returns `None` exactly when every handler's table is empty;
a returned entity is a `Person` carrying the queried id exactly when the
identifier's scheme (the segment before `":"`, upper-cased) is VIAF or
ULAN, and a `CulturalHeritageObject` otherwise; `"VIAF:12345"` classifies
as a person lookup and `"obj1"` as an object lookup. -/
theorem spec_c8_getEntityById (idStr : String) :
    (∀ mds : List MetaHandler,
      getEntityById mds idStr = none ↔ ∀ md ∈ mds, md.byId idStr = []) ∧
    (∀ (md : MetaHandler) (mds' : List MetaHandler), md.byId idStr ≠ [] →
      getEntityById (md :: mds') idStr = getEntityById [md] idStr) ∧
    (∀ (md : MetaHandler) (mds' : List MetaHandler), md.byId idStr = [] →
      getEntityById (md :: mds') idStr = getEntityById mds' idStr) ∧
    (∀ (mds : List MetaHandler) (e : Entity), getEntityById mds idStr = some e →
      (isPersonScheme idStr = true → ∃ p, e = .personE p ∧ p.pid = .vstr idStr) ∧
      (isPersonScheme idStr = false → ∃ o, e = .chObjE o)) ∧
    isPersonScheme "VIAF:12345" = true ∧ isPersonScheme "obj1" = false := by
  refine ⟨?_, ?_, ?_, ?_, by decide, by decide⟩
  · intro mds
    cases hf : firstNonEmptyRow (mds.map (fun md => md.byId idStr)) with
    | none =>
      have hall : ∀ md ∈ mds, md.byId idStr = [] := by
        intro md hmd
        exact (firstNonEmptyRow_eq_none_iff _).mp hf _ (List.mem_map_of_mem _ hmd)
      exact ⟨fun _ => hall, fun _ => getEntityById_none_case mds idStr hf⟩
    | some r =>
      have hsome := getEntityById_some_case mds idStr r hf
      constructor
      · intro h
        rw [hsome] at h
        by_cases hp : isPersonScheme idStr = true <;> simp [hp] at h
      · intro hall
        have hn : firstNonEmptyRow (mds.map (fun md => md.byId idStr)) = none := by
          rw [firstNonEmptyRow_eq_none_iff]
          intro t ht
          rcases List.mem_map.mp ht with ⟨md, hmd, rfl⟩
          exact hall md hmd
        rw [hn] at hf
        cases hf
  · intro md mds' hne
    cases hb : md.byId idStr with
    | nil => exact absurd hb hne
    | cons r rs =>
      have h1 : firstNonEmptyRow ((md :: mds').map (fun md => md.byId idStr)) = some r := by
        simp [firstNonEmptyRow, hb]
      have h2 : firstNonEmptyRow (([md] : List MetaHandler).map (fun md => md.byId idStr)) = some r := by
        simp [firstNonEmptyRow, hb]
      rw [getEntityById_some_case _ _ r h1, getEntityById_some_case _ _ r h2]
  · intro md mds' hemp
    unfold getEntityById
    simp [hemp, firstNonEmptyRow]
  · intro mds e he
    cases hf : firstNonEmptyRow (mds.map (fun md => md.byId idStr)) with
    | none =>
      rw [getEntityById_none_case mds idStr hf] at he
      cases he
    | some r =>
      rw [getEntityById_some_case mds idStr r hf] at he
      by_cases hp : isPersonScheme idStr = true
      · rw [if_pos hp] at he
        refine ⟨fun _ => ⟨mkPersonFromIdRow r idStr, ?_, rfl⟩, fun hc => ?_⟩
        · injection he with h2
          exact h2.symm
        · rw [hp] at hc
          cases hc
      · rw [if_neg hp] at he
        refine ⟨fun hc => absurd hc hp, fun _ => ⟨mkObjFromIdRow r idStr, ?_⟩⟩
        injection he with h2
        exact h2.symm

/-- A concrete metadata handler answering every id lookup with one row
(used to witness claim C8). -/
def mdW8 : MetaHandler where
  byId := fun _ => [[("authorName", .vstr "Alice")]]
  allPeople := []
  allObjects := []
  authoredBy := fun _ => []

/-- C8 witness: with a first handler whose table is non-empty, the second
registered handler is irrelevant. -/
theorem spec_c8_witness :
    getEntityById [mdW8, mdW8] "VIAF:12345" = getEntityById [mdW8] "VIAF:12345" :=
  (spec_c8_getEntityById "VIAF:12345").2.1 mdW8 [mdW8] (by decide)


/-- `List.contains` in terms of membership (the BEq instances in play are
lawful). -/
theorem containsMem {α : Type} [DecidableEq α] {l : List α} {a : α} :
    l.contains a = true ↔ a ∈ l := List.elem_iff

/-- `PyV.vstr` is injective. -/
theorem vstr_injective : Function.Injective PyV.vstr := by
  intro a b h
  injection h

/-- `peopleStep` on an already-processed id. -/
theorem peopleStep_skip (acc : List PersonE × List String) (r : PeopleRow)
    (h : acc.2.contains r.authorId = true) : peopleStep acc r = acc := by
  unfold peopleStep
  rw [if_pos h]

/-- `peopleStep` on a fresh id. -/
theorem peopleStep_add (acc : List PersonE × List String) (r : PeopleRow)
    (h : ¬ acc.2.contains r.authorId = true) :
    peopleStep acc r = (acc.1 ++ [personOfRow r], acc.2 ++ [r.authorId]) := by
  unfold peopleStep
  rw [if_neg h]

/-- The per-handler loop of `getAllPeople` is the fold of the step function
over the concatenation of the handler tables, in registration order. -/
theorem basicGetAllPeopleAux_flat (mds : List MetaHandler)
    (acc : List PersonE × List String) :
    basicGetAllPeopleAux acc mds
      = (mds.flatMap (fun md => md.allPeople)).foldl peopleStep acc := by
  induction mds generalizing acc with
  | nil => rfl
  | cons md rest ih =>
    rw [basicGetAllPeopleAux, ih, List.flatMap_cons, List.foldl_append]

/-- Ids already processed stay frozen in the `getAllPeople` fold: later
rows never change what `find?` sees for them. -/
theorem foldPeople_frozen (rows : List PeopleRow) :
    ∀ (acc : List PersonE × List String) (i : String), i ∈ acc.2 →
      (rows.foldl peopleStep acc).1.find? (fun p => p.pid == .vstr i)
        = acc.1.find? (fun p => p.pid == .vstr i) := by
  induction rows with
  | nil =>
    intro acc i _
    rfl
  | cons r rest ih =>
    intro acc i hi
    rw [List.foldl_cons]
    by_cases hc : acc.2.contains r.authorId = true
    · rw [peopleStep_skip acc r hc]
      exact ih acc i hi
    · rw [peopleStep_add acc r hc]
      have hne : r.authorId ≠ i := fun he => hc (by rw [he]; exact containsMem.mpr hi)
      rw [ih _ i (List.mem_append_left _ hi)]
      rw [List.find?_append, hnoneSingleton hne, Option.or_none]
where
  hnoneSingleton : ∀ {r : PeopleRow} {i : String}, r.authorId ≠ i →
      List.find? (fun p => p.pid == PyV.vstr i) [personOfRow r] = none := by
    intro r i hne
    have hb : ((personOfRow r).pid == PyV.vstr i) = false := by
      simp only [personOfRow]
      exact beq_eq_false_iff_ne.mpr (fun he => hne (vstr_injective he))
    simp [List.find?, hb]

/-- First-match characterization of the `getAllPeople` fold: for an id not
yet processed, the surviving entry is the one built from the first row with
that id, in row order. -/
theorem foldPeople_find (rows : List PeopleRow) :
    ∀ (acc : List PersonE × List String) (i : String), i ∉ acc.2 →
      acc.1.find? (fun p => p.pid == .vstr i) = none →
      (rows.foldl peopleStep acc).1.find? (fun p => p.pid == .vstr i)
        = (rows.find? (fun r => r.authorId == i)).map personOfRow := by
  induction rows with
  | nil =>
    intro acc i _ hnone
    exact hnone
  | cons r rest ih =>
    intro acc i hi hnone
    rw [List.foldl_cons]
    by_cases hri : r.authorId = i
    · have hc : ¬ acc.2.contains r.authorId = true := by
        intro h
        exact hi (hri ▸ containsMem.mp h)
      rw [peopleStep_add acc r hc]
      have hmem : i ∈ acc.2 ++ [r.authorId] :=
        List.mem_append_right _ (by rw [hri]; exact List.mem_singleton_self _)
      rw [foldPeople_frozen rest _ i hmem]
      rw [List.find?_append, hnone, Option.none_or]
      have hb : ((personOfRow r).pid == PyV.vstr i) = true := by
        simp only [personOfRow]
        exact beq_iff_eq.mpr (by rw [hri])
      simp [List.find?, hb, beq_iff_eq.mpr hri]
    · have hbr : (r.authorId == i) = false := beq_eq_false_iff_ne.mpr hri
      have hrhs : List.find? (fun r => r.authorId == i) (r :: rest)
          = List.find? (fun r => r.authorId == i) rest := by
        simp [List.find?, hbr]
      rw [hrhs]
      by_cases hc : acc.2.contains r.authorId = true
      · rw [peopleStep_skip acc r hc]
        exact ih acc i hi hnone
      · rw [peopleStep_add acc r hc]
        refine ih _ i ?_ ?_
        · intro hmem
          rcases List.mem_append.mp hmem with h | h
          · exact hi h
          · exact hri (List.mem_singleton.mp h).symm
        · rw [List.find?_append, hnone, Option.none_or]
          have hb : ((personOfRow r).pid == PyV.vstr i) = false := by
            simp only [personOfRow]
            exact beq_eq_false_iff_ne.mpr (fun he => hri (vstr_injective he))
          simp [List.find?, hb]

/-- The processed-id set of the `getAllPeople` fold mirrors the ids of the
accumulated entries and stays duplicate-free. -/
theorem foldPeople_ids (rows : List PeopleRow) :
    ∀ acc : List PersonE × List String,
      acc.1.map (fun p => p.pid) = acc.2.map PyV.vstr → acc.2.Nodup →
      (rows.foldl peopleStep acc).1.map (fun p => p.pid)
          = (rows.foldl peopleStep acc).2.map PyV.vstr
        ∧ (rows.foldl peopleStep acc).2.Nodup := by
  induction rows with
  | nil =>
    intro acc h hd
    exact ⟨h, hd⟩
  | cons r rest ih =>
    intro acc h hd
    rw [List.foldl_cons]
    by_cases hc : acc.2.contains r.authorId = true
    · rw [peopleStep_skip acc r hc]
      exact ih acc h hd
    · rw [peopleStep_add acc r hc]
      refine ih _ ?_ ?_
      · simp only [List.map_append, h]
        rfl
      · refine hd.append (List.nodup_singleton _) ?_
        intro x hx hx'
        rcases List.mem_singleton.mp hx' with rfl
        exact hc (containsMem.mpr hx)

/-- The entry built by `getAllCulturalHeritageObjects` carries the
stringified row id. -/
theorem mkObjFromAllRow_oid (k : ObjKind) (r : ObjRow) (oid : String) :
    (mkObjFromAllRow k r oid).oid = .vstr oid := rfl

/-- `objStep` on an already-processed id. -/
theorem objStep_skipSeen (acc : List CHObj × List String) (r : ObjRow)
    (h : acc.2.contains (pyStr r.rid) = true) : objStep acc r = acc := by
  have hcond : (decide (pyStr r.rid = "") || acc.2.contains (pyStr r.rid)) = true := by
    rw [h, Bool.or_true]
  unfold objStep
  rw [if_pos hcond]

/-- `objStep` on an empty stringified id. -/
theorem objStep_skipEmpty (acc : List CHObj × List String) (r : ObjRow)
    (h : pyStr r.rid = "") : objStep acc r = acc := by
  have hcond : (decide (pyStr r.rid = "") || acc.2.contains (pyStr r.rid)) = true := by
    rw [h]
    simp
  unfold objStep
  rw [if_pos hcond]

/-- `objStep` on an unrecognized type tag: the row is dropped and the id is
NOT marked processed. -/
theorem objStep_skipBad (acc : List CHObj × List String) (r : ObjRow)
    (h : classMap r.typeName = none) : objStep acc r = acc := by
  unfold objStep
  by_cases hc : (decide (pyStr r.rid = "") || acc.2.contains (pyStr r.rid)) = true
  · rw [if_pos hc]
  · rw [if_neg hc, h]

/-- `objStep` on a fresh id with a recognized tag. -/
theorem objStep_add (acc : List CHObj × List String) (r : ObjRow) (k : ObjKind)
    (h1 : ¬ pyStr r.rid = "") (h2 : ¬ acc.2.contains (pyStr r.rid) = true)
    (h3 : classMap r.typeName = some k) :
    objStep acc r = (acc.1 ++ [mkObjFromAllRow k r (pyStr r.rid)], acc.2 ++ [pyStr r.rid]) := by
  have hc : ¬ (decide (pyStr r.rid = "") || acc.2.contains (pyStr r.rid)) = true := by
    rw [Bool.or_eq_true]
    rintro (h | h)
    · exact h1 (of_decide_eq_true h)
    · exact h2 h
  unfold objStep
  rw [if_neg hc, h3]

/-- The per-handler loop of `getAllCulturalHeritageObjects` is the fold of
the step function over the concatenation of the handler tables. -/
theorem basicGetAllCHOAux_flat (mds : List MetaHandler)
    (acc : List CHObj × List String) :
    basicGetAllCHOAux acc mds
      = (mds.flatMap (fun md => md.allObjects)).foldl objStep acc := by
  induction mds generalizing acc with
  | nil => rfl
  | cons md rest ih =>
    rw [basicGetAllCHOAux, ih, List.flatMap_cons, List.foldl_append]

/-- Ids already processed stay frozen in the
`getAllCulturalHeritageObjects` fold. -/
theorem foldObj_frozen (rows : List ObjRow) :
    ∀ (acc : List CHObj × List String) (i : String), i ∈ acc.2 →
      (rows.foldl objStep acc).1.find? (fun o => o.oid == .vstr i)
        = acc.1.find? (fun o => o.oid == .vstr i) := by
  induction rows with
  | nil =>
    intro acc i _
    rfl
  | cons r rest ih =>
    intro acc i hi
    rw [List.foldl_cons]
    by_cases h1 : pyStr r.rid = ""
    · rw [objStep_skipEmpty acc r h1]
      exact ih acc i hi
    · by_cases h2 : acc.2.contains (pyStr r.rid) = true
      · rw [objStep_skipSeen acc r h2]
        exact ih acc i hi
      · cases h3 : classMap r.typeName with
        | none =>
          rw [objStep_skipBad acc r h3]
          exact ih acc i hi
        | some k =>
          rw [objStep_add acc r k h1 h2 h3]
          have hne : pyStr r.rid ≠ i := fun he => h2 (by rw [he]; exact containsMem.mpr hi)
          rw [ih _ i (List.mem_append_left _ hi)]
          have hb : ((mkObjFromAllRow k r (pyStr r.rid)).oid == PyV.vstr i) = false := by
            rw [mkObjFromAllRow_oid]
            exact beq_eq_false_iff_ne.mpr (fun he => hne (vstr_injective he))
          rw [List.find?_append]
          have hsing : List.find? (fun o => o.oid == PyV.vstr i)
              [mkObjFromAllRow k r (pyStr r.rid)] = none := by
            simp [List.find?, hb]
          rw [hsing, Option.or_none]

/-- First-match characterization of the `getAllCulturalHeritageObjects`
fold: for a non-empty id not yet processed, the surviving entry is built
from the first row carrying that id AND a recognized type tag; rows with
that id but an unrecognized tag are passed over without blocking later
rows. -/
theorem foldObj_find (rows : List ObjRow) :
    ∀ (acc : List CHObj × List String) (i : String), i ≠ "" → i ∉ acc.2 →
      acc.1.find? (fun o => o.oid == .vstr i) = none →
      (rows.foldl objStep acc).1.find? (fun o => o.oid == .vstr i)
        = (rows.find? (fun r => pyStr r.rid == i && (classMap r.typeName).isSome)).map
            (fun r => mkObjFromAllRow ((classMap r.typeName).getD .base) r (pyStr r.rid)) := by
  induction rows with
  | nil =>
    intro acc i _ _ hnone
    exact hnone
  | cons r rest ih =>
    intro acc i hiNe hi hnone
    rw [List.foldl_cons]
    by_cases hid : pyStr r.rid = i
    · cases h3 : classMap r.typeName with
      | none =>
        have hpred : (pyStr r.rid == i && (classMap r.typeName).isSome) = false := by
          rw [h3]
          simp
        have hrhs : List.find?
              (fun r => pyStr r.rid == i && (classMap r.typeName).isSome) (r :: rest)
            = List.find? (fun r => pyStr r.rid == i && (classMap r.typeName).isSome) rest := by
          simp only [List.find?, hpred]
        rw [hrhs, objStep_skipBad acc r h3]
        exact ih acc i hiNe hi hnone
      | some k =>
        have h1 : ¬ pyStr r.rid = "" := by rw [hid]; exact hiNe
        have h2 : ¬ acc.2.contains (pyStr r.rid) = true := by
          intro h
          exact hi (hid ▸ containsMem.mp h)
        rw [objStep_add acc r k h1 h2 h3]
        have hmem : i ∈ acc.2 ++ [pyStr r.rid] :=
          List.mem_append_right _ (by rw [hid]; exact List.mem_singleton_self _)
        rw [foldObj_frozen rest _ i hmem]
        rw [List.find?_append, hnone, Option.none_or]
        have hb : ((mkObjFromAllRow k r (pyStr r.rid)).oid == PyV.vstr i) = true := by
          rw [mkObjFromAllRow_oid]
          exact beq_iff_eq.mpr (by rw [hid])
        have hpred : (pyStr r.rid == i && (classMap r.typeName).isSome) = true := by
          rw [h3, beq_iff_eq.mpr hid]
          rfl
        simp only [List.find?, hb, hpred]
        rw [Option.map_some', h3]
        rfl
    · have hpred : (pyStr r.rid == i && (classMap r.typeName).isSome) = false := by
        rw [beq_eq_false_iff_ne.mpr hid]
        rfl
      have hrhs : List.find?
            (fun r => pyStr r.rid == i && (classMap r.typeName).isSome) (r :: rest)
          = List.find? (fun r => pyStr r.rid == i && (classMap r.typeName).isSome) rest := by
        simp only [List.find?, hpred]
      rw [hrhs]
      by_cases h1 : pyStr r.rid = ""
      · rw [objStep_skipEmpty acc r h1]
        exact ih acc i hiNe hi hnone
      · by_cases h2 : acc.2.contains (pyStr r.rid) = true
        · rw [objStep_skipSeen acc r h2]
          exact ih acc i hiNe hi hnone
        · cases h3 : classMap r.typeName with
          | none =>
            rw [objStep_skipBad acc r h3]
            exact ih acc i hiNe hi hnone
          | some k =>
            rw [objStep_add acc r k h1 h2 h3]
            refine ih _ i hiNe ?_ ?_
            · intro hmem
              rcases List.mem_append.mp hmem with h | h
              · exact hi h
              · exact hid (List.mem_singleton.mp h).symm
            · rw [List.find?_append, hnone, Option.none_or]
              have hb : ((mkObjFromAllRow k r (pyStr r.rid)).oid == PyV.vstr i) = false := by
                rw [mkObjFromAllRow_oid]
                exact beq_eq_false_iff_ne.mpr (fun he => hid (vstr_injective he))
              simp [List.find?, hb]

/-- The processed-id set of the `getAllCulturalHeritageObjects` fold
mirrors the ids of the accumulated entries and stays duplicate-free. -/
theorem foldObj_ids (rows : List ObjRow) :
    ∀ acc : List CHObj × List String,
      acc.1.map (fun o => o.oid) = acc.2.map PyV.vstr → acc.2.Nodup →
      (rows.foldl objStep acc).1.map (fun o => o.oid)
          = (rows.foldl objStep acc).2.map PyV.vstr
        ∧ (rows.foldl objStep acc).2.Nodup := by
  induction rows with
  | nil =>
    intro acc h hd
    exact ⟨h, hd⟩
  | cons r rest ih =>
    intro acc h hd
    rw [List.foldl_cons]
    by_cases h1 : pyStr r.rid = ""
    · rw [objStep_skipEmpty acc r h1]
      exact ih acc h hd
    · by_cases h2 : acc.2.contains (pyStr r.rid) = true
      · rw [objStep_skipSeen acc r h2]
        exact ih acc h hd
      · cases h3 : classMap r.typeName with
        | none =>
          rw [objStep_skipBad acc r h3]
          exact ih acc h hd
        | some k =>
          rw [objStep_add acc r k h1 h2 h3]
          refine ih _ ?_ ?_
          · simp only [List.map_append, h]
            rfl
          · refine hd.append (List.nodup_singleton _) ?_
            intro x hx hx'
            rcases List.mem_singleton.mp hx' with rfl
            exact h2 (containsMem.mpr hx)

/-- C3: `getAllPeople` and `getAllCulturalHeritageObjects` never return two
entries with the same identifier, and the surviving entry for an identifier
is the one built from the first row producing it across the registered
handlers in registration order (for objects: the first row with that
identifier AND a recognized type tag — rows whose tag is unrecognized never
become entries). -/
theorem spec_c3_dedup_first_wins :
    (∀ mds : List MetaHandler, ((basicGetAllPeople mds).map (fun p => p.pid)).Nodup) ∧
    (∀ (mds : List MetaHandler) (i : String),
      (basicGetAllPeople mds).find? (fun p => p.pid == .vstr i)
        = ((mds.flatMap (fun md => md.allPeople)).find? (fun r => r.authorId == i)).map
            personOfRow) ∧
    (∀ mds : List MetaHandler, ((basicGetAllCHO mds).map (fun o => o.oid)).Nodup) ∧
    (∀ (mds : List MetaHandler) (i : String), i ≠ "" →
      (basicGetAllCHO mds).find? (fun o => o.oid == .vstr i)
        = ((mds.flatMap (fun md => md.allObjects)).find?
            (fun r => pyStr r.rid == i && (classMap r.typeName).isSome)).map
            (fun r => mkObjFromAllRow ((classMap r.typeName).getD .base) r (pyStr r.rid))) := by
  refine ⟨?_, ?_, ?_, ?_⟩
  · intro mds
    unfold basicGetAllPeople
    rw [basicGetAllPeopleAux_flat]
    obtain ⟨hmap, hnd⟩ :=
      foldPeople_ids (mds.flatMap fun md => md.allPeople) ([], []) rfl List.nodup_nil
    rw [hmap]
    exact hnd.map vstr_injective
  · intro mds i
    unfold basicGetAllPeople
    rw [basicGetAllPeopleAux_flat]
    exact foldPeople_find _ ([], []) i (List.not_mem_nil i) rfl
  · intro mds
    unfold basicGetAllCHO
    rw [basicGetAllCHOAux_flat]
    obtain ⟨hmap, hnd⟩ :=
      foldObj_ids (mds.flatMap fun md => md.allObjects) ([], []) rfl List.nodup_nil
    rw [hmap]
    exact hnd.map vstr_injective
  · intro mds i hne
    unfold basicGetAllCHO
    rw [basicGetAllCHOAux_flat]
    exact foldObj_find _ ([], []) i hne (List.not_mem_nil i) rfl

/-- A first registered handler producing `obj1` with an unrecognized tag
(used to witness claim C3). -/
def mdC3a : MetaHandler where
  byId := fun _ => []
  allPeople := [⟨"VIAF:1", "Alice"⟩]
  allObjects := [⟨.vstr "obj1", .vstr "T1", .vnone, .vnone, .vnone, .vnone, .vnone, "Bogus"⟩]
  authoredBy := fun _ => []

/-- A second registered handler producing `obj1` with a recognized tag
(used to witness claim C3). -/
def mdC3b : MetaHandler where
  byId := fun _ => []
  allPeople := [⟨"VIAF:1", "Alice B"⟩]
  allObjects := [⟨.vstr "obj1", .vstr "T2", .vnone, .vnone, .vnone, .vnone, .vnone, "Painting"⟩]
  authoredBy := fun _ => []

/-- C3 witness: the object-side first-match characterization evaluated on
two overlapping handlers. -/
theorem spec_c3_witness :
    (basicGetAllCHO [mdC3a, mdC3b]).find? (fun o => o.oid == .vstr "obj1")
      = ((([mdC3a, mdC3b]).flatMap (fun md => md.allObjects)).find?
          (fun r => pyStr r.rid == "obj1" && (classMap r.typeName).isSome)).map
          (fun r => mkObjFromAllRow ((classMap r.typeName).getD .base) r (pyStr r.rid)) :=
  spec_c3_dedup_first_wins.2.2.2 [mdC3a, mdC3b] "obj1" (by decide)

/-- A process store with all five tables empty. -/
def emptyProcDB : ProcDB := ⟨[], [], [], [], []⟩

/-- A process store whose Acquisition table has one laser-technique row
(used against claim C5). -/
def dbLaser : ProcDB :=
  ⟨[⟨⟨some "o1", some "Inst", some "Bob", some "Scanner", some "2021-01-01",
      some "2021-01-02"⟩, some "laser"⟩], [], [], [], []⟩

/-- C5 counterexample: `getAcquisitionsByTechnique` does NOT consult only
the first registered process handler — with an empty first handler, a
matching row in the second handler still reaches the result, so the result
is not a function of the first handler alone. -/
theorem spec_c5_counterexample :
    basicAcqByTech [] [emptyProcDB, dbLaser] "laser"
        ≠ basicAcqByTech [] [emptyProcDB, emptyProcDB] "laser" ∧
    (basicAcqByTech [] [emptyProcDB, dbLaser] "laser").length = 1 ∧
    (basicAcqByTech [] [emptyProcDB, emptyProcDB] "laser").length = 0 := by
  refine ⟨?_, by decide, by decide⟩
  intro h
  have := congrArg List.length h
  rw [show (basicAcqByTech [] [emptyProcDB, dbLaser] "laser").length = 1 from by decide,
      show (basicAcqByTech [] [emptyProcDB, emptyProcDB] "laser").length = 0 from by decide] at this
  cases this

/-- The per-handler loop of `getAllActivities` as a flat map. -/
theorem basicGetAllActivities_flatMap (mds : List MetaHandler) (procs : List ProcDB) :
    basicGetAllActivities mds procs
      = procs.flatMap (fun db => rowsToActivities mds (hGetAllActivities db)) := by
  induction procs with
  | nil => rfl
  | cons db rest ih => rw [basicGetAllActivities, List.flatMap_cons, ih]

/-- The per-handler loop of `getActivitiesByResponsibleInstitution` as a
flat map. -/
theorem basicByInstitution_flatMap (mds : List MetaHandler) (s : String)
    (procs : List ProcDB) :
    basicByInstitution mds s procs
      = procs.flatMap (fun db => rowsToActivities mds (hByInstitution db s)) := by
  induction procs with
  | nil => rfl
  | cons db rest ih => rw [basicByInstitution, List.flatMap_cons, ih]

/-- The per-handler loop of `getActivitiesByResponsiblePerson` as a flat
map. -/
theorem basicByPerson_flatMap (mds : List MetaHandler) (s : String)
    (procs : List ProcDB) :
    basicByPerson mds s procs
      = procs.flatMap (fun db => rowsToActivities mds (hByPerson db s)) := by
  induction procs with
  | nil => rfl
  | cons db rest ih => rw [basicByPerson, List.flatMap_cons, ih]

/-- The per-handler loop of `getActivitiesStartedAfter` as a flat map. -/
theorem basicStartedAfter_flatMap (mds : List MetaHandler) (d : String)
    (procs : List ProcDB) :
    basicStartedAfter mds d procs
      = procs.flatMap (fun db => rowsToActivities mds (hStartedAfter db d)) := by
  induction procs with
  | nil => rfl
  | cons db rest ih => rw [basicStartedAfter, List.flatMap_cons, ih]

/-- The per-handler loop of `getActivitiesEndedBefore` as a flat map. -/
theorem basicEndedBefore_flatMap (mds : List MetaHandler) (d : String)
    (procs : List ProcDB) :
    basicEndedBefore mds d procs
      = procs.flatMap (fun db => rowsToActivities mds (hEndedBefore db d)) := by
  induction procs with
  | nil => rfl
  | cons db rest ih => rw [basicEndedBefore, List.flatMap_cons, ih]

/-- C5 (amended): `getActivitiesUsingTool` consults only the first
registered process handler (and returns nothing when none is registered);
the five other activity-returning `BasicMashup` methods fan out across all
process handlers in registration order, concatenating per-handler results;
`getAcquisitionsByTechnique` ALSO fans out across all process handlers, in
registration order with an object-id deduplication set shared across
handlers — in particular a first handler without matching rows does not
stop the fan-out. -/
theorem spec_c5_amended :
    (∀ (mds : List MetaHandler) (db : ProcDB) (procs procs' : List ProcDB) (t : String),
      basicUsingTool mds (db :: procs) t = basicUsingTool mds (db :: procs') t) ∧
    (∀ (mds : List MetaHandler) (t : String), basicUsingTool mds [] t = []) ∧
    (∀ (mds : List MetaHandler) (procs : List ProcDB),
      basicGetAllActivities mds procs
        = procs.flatMap (fun db => rowsToActivities mds (hGetAllActivities db))) ∧
    (∀ (mds : List MetaHandler) (s : String) (procs : List ProcDB),
      basicByInstitution mds s procs
        = procs.flatMap (fun db => rowsToActivities mds (hByInstitution db s))) ∧
    (∀ (mds : List MetaHandler) (s : String) (procs : List ProcDB),
      basicByPerson mds s procs
        = procs.flatMap (fun db => rowsToActivities mds (hByPerson db s))) ∧
    (∀ (mds : List MetaHandler) (d : String) (procs : List ProcDB),
      basicStartedAfter mds d procs
        = procs.flatMap (fun db => rowsToActivities mds (hStartedAfter db d))) ∧
    (∀ (mds : List MetaHandler) (d : String) (procs : List ProcDB),
      basicEndedBefore mds d procs
        = procs.flatMap (fun db => rowsToActivities mds (hEndedBefore db d))) ∧
    (∀ (mds : List MetaHandler) (db : ProcDB) (procs : List ProcDB) (t : String),
      hAcqByTech db t = [] →
      basicAcqByTech mds (db :: procs) t = basicAcqByTech mds procs t) := by
  refine ⟨fun _ _ _ _ _ => rfl, fun _ _ => rfl,
    basicGetAllActivities_flatMap, basicByInstitution_flatMap, basicByPerson_flatMap,
    basicStartedAfter_flatMap, basicEndedBefore_flatMap, ?_⟩
  · intro mds db procs t h
    unfold basicAcqByTech
    rw [basicAcqByTechAux, h]
    rfl

/-- C5 witness: a first handler with no technique match does not stop
`getAcquisitionsByTechnique`. -/
theorem spec_c5_witness :
    basicAcqByTech [] [emptyProcDB, dbLaser] "laser"
      = basicAcqByTech [] [dbLaser] "laser" :=
  spec_c5_amended.2.2.2.2.2.2.2 [] emptyProcDB [dbLaser] "laser" (by decide)

/-- The stored id of an object-valued `refersTo`, when there is one. -/
def refObjId : RefTarget → Option PyV
  | .robj o => some o.oid
  | _ => none

/-- The `getById` result row the real object query produces: the
`?CulturalObject` variable is bound to the subject URI of the matched
entity, distinct from its `schema:identifier`. -/
def rowC2 : PRow :=
  [("CulturalObject", .vstr "https://example.org/obj1"), ("label", .vstr "T")]

/-- A metadata handler resolving every identifier to `rowC2`. -/
def mdC2 : MetaHandler where
  byId := fun _ => [rowC2]
  allPeople := []
  allObjects := []
  authoredBy := fun _ => []

/-- One Acquisition row on object `obj1`. -/
def acqRowC2 : AcqRow :=
  ⟨⟨some "obj1", some "Inst", some "Bob", some "Scanner", some "2021-05-01",
    some "2021-05-10"⟩, some "X-ray"⟩

/-- A process store holding only `acqRowC2`. -/
def dbC2 : ProcDB := ⟨[acqRowC2], [], [], [], []⟩

/-- C2 counterexample: the metadata handler's `getById("obj1")` table is
non-empty (so `obj1` exists in the metadata store), yet the single activity
returned by `getAllActivities` has `refersTo.id` equal to the row's
`CulturalObject` binding — the subject URI — and not to the object's
identifier `obj1`. -/
theorem spec_c2_counterexample :
    mdC2.byId "obj1" ≠ [] ∧
    (basicGetAllActivities [mdC2] [dbC2]).length = 1 ∧
    (basicGetAllActivities [mdC2] [dbC2]).map (fun a => refObjId a.refersTo)
      = [some (.vstr "https://example.org/obj1")] ∧
    PyV.vstr "https://example.org/obj1" ≠ PyV.vstr "obj1" := by
  refine ⟨by decide, by decide, by decide, by decide⟩

/-- C2 (amended): when an activity row's `object_id` resolves (some
handler's `getById` table is non-empty) and the id is not person-classified,
the returned Activity's `refersTo` is a `CulturalHeritageObject` whose
stored id is `row.get("CulturalObject") or object_id` — the first row's
`CulturalObject` binding (the subject URI) whenever that binding is truthy,
and the queried `object_id` only otherwise. -/
theorem spec_c2_amended :
    (∀ (mds : List MetaHandler) (oid : String) (r : PRow),
      firstNonEmptyRow (mds.map (fun md => md.byId oid)) = some r →
      isPersonScheme oid = false →
      getEntityById mds oid = some (.chObjE (mkObjFromIdRow r oid)) ∧
      (mkObjFromIdRow r oid).oid = pyOr (rget r "CulturalObject") (.vstr oid)) ∧
    (∀ (mds : List MetaHandler) (procs : List ProcDB) (a : ActivityE),
      a ∈ basicGetAllActivities mds procs →
      ∃ u, u ∈ procs.flatMap hGetAllActivities ∧
        a.refersTo = entityToRef (getEntityById mds (oidStr u))) := by
  constructor
  · intro mds oid r h hp
    rw [getEntityById_some_case mds oid r h, hp]
    exact ⟨rfl, rfl⟩
  · intro mds procs a ha
    rw [basicGetAllActivities_flatMap] at ha
    rcases List.mem_flatMap.mp ha with ⟨db, hdb, hmem⟩
    rcases List.mem_map.mp hmem with ⟨u, hu, rfl⟩
    exact ⟨u, List.mem_flatMap.mpr ⟨db, hdb, hu⟩, rfl⟩

/-- C2 witness: the amended resolution behaviour evaluated on the concrete
handler and row. -/
theorem spec_c2_witness :
    getEntityById [mdC2] "obj1" = some (.chObjE (mkObjFromIdRow rowC2 "obj1")) ∧
    (mkObjFromIdRow rowC2 "obj1").oid = pyOr (rget rowC2 "CulturalObject") (.vstr "obj1") :=
  spec_c2_amended.1 [mdC2] "obj1" rowC2 (by decide) (by decide)

/-- The `refersTo` column of the shared activity construction: one
resolution through `getEntityById` per row. -/
theorem rowsToActivities_refersTo (mds : List MetaHandler) (rows : List UnionRow) :
    (rowsToActivities mds rows).map (fun a => a.refersTo)
      = rows.map (fun r => entityToRef (getEntityById mds (oidStr r))) := by
  unfold rowsToActivities
  rw [List.map_map]
  rfl

/-- `acqTechStep` keeps the accumulator or appends one constructed
acquisition. -/
theorem acqTechFold_mem (mds : List MetaHandler) (rows : List AcqRow) :
    ∀ (acc : List ActivityE × List PyV) (a : ActivityE),
      a ∈ (rows.foldl (acqTechStep mds) acc).1 →
      a ∈ acc.1 ∨ ∃ r, a = mkAcqByTechActivity mds r := by
  induction rows with
  | nil =>
    intro acc a ha
    exact Or.inl ha
  | cons r rest ih =>
    intro acc a ha
    rw [List.foldl_cons] at ha
    by_cases hc : (pyTruthy (optToPy r.objectId) && !(acc.2.contains (optToPy r.objectId))) = true
    · rw [show acqTechStep mds acc r
          = (acc.1 ++ [mkAcqByTechActivity mds r], acc.2 ++ [optToPy r.objectId]) from by
          unfold acqTechStep; rw [if_pos hc]] at ha
      rcases ih _ a ha with h | h
      · rcases List.mem_append.mp h with h' | h'
        · exact Or.inl h'
        · exact Or.inr ⟨r, (List.mem_singleton.mp h')⟩
      · exact Or.inr h
    · rw [show acqTechStep mds acc r = acc from by unfold acqTechStep; rw [if_neg hc]] at ha
      exact ih acc a ha

/-- Every element of the `getAcquisitionsByTechnique` accumulation is a
constructed acquisition. -/
theorem acqTechAux_mem (mds : List MetaHandler) (t : String) (procs : List ProcDB) :
    ∀ (acc : List ActivityE × List PyV) (a : ActivityE),
      a ∈ (basicAcqByTechAux mds t acc procs).1 →
      a ∈ acc.1 ∨ ∃ r, a = mkAcqByTechActivity mds r := by
  induction procs with
  | nil =>
    intro acc a ha
    exact Or.inl ha
  | cons db rest ih =>
    intro acc a ha
    rw [basicAcqByTechAux] at ha
    rcases ih _ a ha with h | h
    · exact acqTechFold_mem mds (hAcqByTech db t) acc a h
    · exact Or.inr h

/-- An object row used as an `authoredBy` answer (claim C7). -/
def objRowC7 : ObjRow :=
  ⟨.vstr "obj1", .vstr "T", .vnone, .vnone, .vnone, .vnone, .vnone, "Painting"⟩

/-- A metadata handler that can resolve `obj1` through `getById` and lists
it among the objects authored by anyone. -/
def mdC7 : MetaHandler where
  byId := fun _ => [rowC2]
  allPeople := []
  allObjects := []
  authoredBy := fun _ => [objRowC7]

/-- C7 counterexample: `getActivitiesOnObjectsAuthoredBy` builds its
activities with `refersTo` holding the bare object-id STRING, even though
the metadata handler resolves that id through `getEntityById` — the
cross-store join is skipped in this method, contradicting the claim that
every activity-returning method resolves `refersTo` via `getEntityById`. -/
theorem spec_c7_counterexample :
    advOnObjectsAuthoredBy [mdC7] [dbC2] "VIAF:9"
        = .ok [mkAuthoredActivity (acqToUnion acqRowC2)] ∧
    (mkAuthoredActivity (acqToUnion acqRowC2)).refersTo = .rstr "obj1" ∧
    getEntityById [mdC7] "obj1" ≠ none ∧
    RefTarget.rstr "obj1" ≠ entityToRef (getEntityById [mdC7] "obj1") :=
  ⟨rfl, rfl, fun h => Option.noConfusion h, fun h => RefTarget.noConfusion h⟩

/-- C7 (amended): the six `BasicMashup` activity-returning methods set
`refersTo` to `getEntityById`'s result — `None` when nothing resolves, with
the Activity still constructed (one activity per row, never aborting the
fan-out); but `getAcquisitionsByTechnique` substitutes a placeholder
`CulturalHeritageObject` when the resolution yields a `Person` or nothing
(so its `refersTo` is always object-valued), and
`AdvancedMashup.getActivitiesOnObjectsAuthoredBy` stores the bare
`str(object_id)` without consulting `getEntityById` at all. -/
theorem spec_c7_amended :
    (∀ (mds : List MetaHandler) (rows : List UnionRow),
      (rowsToActivities mds rows).map (fun a => a.refersTo)
        = rows.map (fun r => entityToRef (getEntityById mds (oidStr r)))) ∧
    (∀ (mds : List MetaHandler) (procs : List ProcDB),
      (basicGetAllActivities mds procs).map (fun a => a.refersTo)
        = (procs.flatMap hGetAllActivities).map
            (fun r => entityToRef (getEntityById mds (oidStr r)))) ∧
    (∀ (mds : List MetaHandler) (d : String) (procs : List ProcDB),
      (basicStartedAfter mds d procs).map (fun a => a.refersTo)
        = (procs.flatMap (fun db => hStartedAfter db d)).map
            (fun r => entityToRef (getEntityById mds (oidStr r)))) ∧
    (∀ (mds : List MetaHandler) (db : ProcDB) (procs : List ProcDB) (t : String),
      (basicUsingTool mds (db :: procs) t).map (fun a => a.refersTo)
        = ((hGetAllActivities db).filter (fun r => toolRowMatches r t)).map
            (fun r => entityToRef (getEntityById mds (oidStr r)))) ∧
    (∀ u : UnionRow, (mkAuthoredActivity u).refersTo = .rstr (oidStr u)) ∧
    (∀ (md : MetaHandler) (mds : List MetaHandler) (procs : List ProcDB) (aid : String),
      md.authoredBy aid ≠ [] →
      advOnObjectsAuthoredBy (md :: mds) procs aid
        = .ok (procs.flatMap (fun db =>
            ((hGetAllActivities db).filter (fun r =>
              ((md.authoredBy aid).map (fun r2 => pyStr r2.rid)).contains (oidStr r))).map
              mkAuthoredActivity))) ∧
    (∀ (mds : List MetaHandler) (procs : List ProcDB) (t : String) (a : ActivityE),
      a ∈ basicAcqByTech mds procs t → ∃ o, a.refersTo = .robj o) := by
  refine ⟨rowsToActivities_refersTo, ?_, ?_, ?_, fun _ => rfl, ?_, ?_⟩
  · intro mds procs
    rw [basicGetAllActivities_flatMap]
    induction procs with
    | nil => rfl
    | cons db rest ih =>
      rw [List.flatMap_cons, List.flatMap_cons, List.map_append, List.map_append, ih,
        rowsToActivities_refersTo]
  · intro mds d procs
    rw [basicStartedAfter_flatMap]
    induction procs with
    | nil => rfl
    | cons db rest ih =>
      rw [List.flatMap_cons, List.flatMap_cons, List.map_append, List.map_append, ih,
        rowsToActivities_refersTo]
  · intro mds db procs t
    exact rowsToActivities_refersTo mds _
  · intro md mds procs aid h
    have hred : advOnObjectsAuthoredBy (md :: mds) procs aid
        = if (md.authoredBy aid).isEmpty then .ok []
          else .ok (procs.flatMap (fun db =>
            ((hGetAllActivities db).filter (fun r =>
              ((md.authoredBy aid).map (fun r2 => pyStr r2.rid)).contains (oidStr r))).map
              mkAuthoredActivity)) := rfl
    rw [hred, if_neg (by simpa [List.isEmpty_iff] using h)]
  · intro mds procs t a ha
    unfold basicAcqByTech at ha
    rcases acqTechAux_mem mds t procs ([], []) a ha with h | ⟨r, rfl⟩
    · exact absurd h (List.not_mem_nil a)
    · exact ⟨_, rfl⟩

/-- C7 witness: the authored-by equation evaluated on the concrete handler
and store. -/
theorem spec_c7_witness :
    advOnObjectsAuthoredBy [mdC7] [dbC2] "VIAF:9"
      = .ok ([dbC2].flatMap (fun db =>
          ((hGetAllActivities db).filter (fun r =>
            ((mdC7.authoredBy "VIAF:9").map (fun r2 => pyStr r2.rid)).contains (oidStr r))).map
            mkAuthoredActivity)) :=
  spec_c7_amended.2.2.2.2.2.1 mdC7 [] [dbC2] "VIAF:9" (by decide)

/-- The ten-tag dictionary never yields the base classification. -/
theorem classMap_ne_base (s : String) (k : ObjKind) (h : classMap s = some k) :
    k ≠ .base := by
  unfold classMap at h
  split at h <;> first
    | (injection h with h'; subst h'; intro hc; cases hc)
    | cases h

/-- Every entry of the `getAllCulturalHeritageObjects` fold either was
already accumulated or is built from a row whose tag the dictionary
recognizes. -/
theorem foldObj_mem (rows : List ObjRow) :
    ∀ (acc : List CHObj × List String) (o : CHObj),
      o ∈ (rows.foldl objStep acc).1 →
      o ∈ acc.1 ∨ ∃ r k, classMap r.typeName = some k ∧ o = mkObjFromAllRow k r (pyStr r.rid) := by
  induction rows with
  | nil =>
    intro acc o ho
    exact Or.inl ho
  | cons r rest ih =>
    intro acc o ho
    rw [List.foldl_cons] at ho
    by_cases h1 : pyStr r.rid = ""
    · rw [objStep_skipEmpty acc r h1] at ho
      exact ih acc o ho
    · by_cases h2 : acc.2.contains (pyStr r.rid) = true
      · rw [objStep_skipSeen acc r h2] at ho
        exact ih acc o ho
      · cases h3 : classMap r.typeName with
        | none =>
          rw [objStep_skipBad acc r h3] at ho
          exact ih acc o ho
        | some k =>
          rw [objStep_add acc r k h1 h2 h3] at ho
          rcases ih _ o ho with h | h
          · rcases List.mem_append.mp h with h' | h'
            · exact Or.inl h'
            · exact Or.inr ⟨r, k, h3, List.mem_singleton.mp h'⟩
          · exact Or.inr h

/-- A processing row handled by Alice on `obj1`. -/
def procRowC6 : SqlRow :=
  ⟨some "obj1", some "Inst", some "Alice", some "Tool", some "2021-01-01", some "2021-01-02"⟩

/-- A process store holding only `procRowC6`. -/
def dbC6 : ProcDB := ⟨[], [procRowC6], [], [], []⟩

/-- An object row for `obj1` with an unrecognized type tag. -/
def objRowC6 : ObjRow :=
  ⟨.vstr "obj1", .vstr "T", .vnone, .vnone, .vnone, .vnone, .vnone, "Bogus"⟩

/-- A metadata handler whose full object listing is the single
unrecognized-tag row. -/
def mdC6 : MetaHandler where
  byId := fun _ => []
  allPeople := []
  allObjects := [objRowC6]
  authoredBy := fun _ => []

/-- C6 counterexample: `getObjectsHandledByResponsiblePerson` does NOT skip
a row whose type tag is unrecognized — it reconstructs the row as a
base-class `CulturalHeritageObject`, so the result is non-empty where the
claim requires the row to be dropped. -/
theorem spec_c6_counterexample :
    advObjectsHandledByPerson [mdC6] [dbC6] "Alice" = .ok [mkHandledObj objRowC6] ∧
    (mkHandledObj objRowC6).kind = ObjKind.base ∧
    classMap "Bogus" = none :=
  ⟨rfl, rfl, rfl⟩

/-- C6 (amended): `getAllCulturalHeritageObjects` (and, per its `else:
continue` branch, `getCulturalHeritageObjectsAuthoredBy`) skips a row whose
type tag is not one of the ten recognized tags, reconstructing no object
from it; but the map-dispatch reconstruction methods —
`getObjectsHandledByResponsiblePerson` among them — instead fall back to
the base `CulturalHeritageObject` class for such rows, producing one object
per selected row; neither path raises. -/
theorem spec_c6_unrecognized_tags :
    (∀ (mds : List MetaHandler) (o : CHObj), o ∈ basicGetAllCHO mds →
      o.kind ≠ .base) ∧
    (∀ (md : MetaHandler) (mds : List MetaHandler) (procs : List ProcDB)
        (p : String) (l : List CHObj),
      advObjectsHandledByPerson (md :: mds) procs p = .ok l →
      l.map (fun o => o.kind)
        = (md.allObjects.filter (fun r =>
            (procs.flatMap (fun db => (hByPerson db p).map oidStr)).contains
              (pyStr r.rid))).map
            (fun r => (classMap r.typeName).getD .base)) := by
  constructor
  · intro mds o ho
    unfold basicGetAllCHO at ho
    rw [basicGetAllCHOAux_flat] at ho
    rcases foldObj_mem _ ([], []) o ho with h | ⟨r, k, hk, rfl⟩
    · exact absurd h (List.not_mem_nil o)
    · exact classMap_ne_base _ k hk
  · intro md mds procs p l h
    have hred : advObjectsHandledByPerson (md :: mds) procs p
        = if md.allObjects.isEmpty then .ok []
          else .ok ((md.allObjects.filter (fun r =>
            (procs.flatMap (fun db => (hByPerson db p).map oidStr)).contains
              (pyStr r.rid))).map mkHandledObj) := rfl
    rw [hred] at h
    by_cases he : md.allObjects.isEmpty
    · rw [if_pos he] at h
      injection h with h'
      subst h'
      rw [List.isEmpty_iff.mp he]
      rfl
    · rw [if_neg he] at h
      injection h with h'
      subst h'
      rw [List.map_map]
      rfl

/-- C6 witness: the fallback characterization evaluated on the concrete
handler and store. -/
theorem spec_c6_witness :
    ([mkHandledObj objRowC6]).map (fun o => o.kind)
      = (mdC6.allObjects.filter (fun r =>
          ([dbC6].flatMap (fun db => (hByPerson db "Alice").map oidStr)).contains
            (pyStr r.rid))).map
          (fun r => (classMap r.typeName).getD .base) :=
  spec_c6_unrecognized_tags.2 mdC6 [] [dbC6] "Alice" [mkHandledObj objRowC6] rfl

/-- Membership in the intersection filter as a boolean conjunction. -/
theorem contains_filter_contains (l1 l2 : List String) (x : String) :
    (l1.filter (fun i => l2.contains i)).contains x
      = (l1.contains x && l2.contains x) := by
  apply Bool.eq_iff_iff.mpr
  rw [containsMem, List.mem_filter, Bool.and_eq_true, containsMem, containsMem]

/-- One Acquisition row on `obj1` inside the 2024 window. -/
def acqRowT1 : AcqRow :=
  ⟨⟨some "obj1", some "I", some "B", some "T", some "2024-01-02", some "2024-01-03"⟩, some "X"⟩

/-- One Acquisition row on `obj2` inside the 2024 window. -/
def acqRowT2 : AcqRow :=
  ⟨⟨some "obj2", some "I", some "B", some "T", some "2024-01-02", some "2024-01-03"⟩, some "X"⟩

/-- A process store holding the two window rows. -/
def dbC4 : ProcDB := ⟨[acqRowT1, acqRowT2], [], [], [], []⟩

/-- Object `obj1`, authored by VIAF:1 Alice. -/
def objRowC4a : ObjRow :=
  ⟨.vstr "obj1", .vstr "T1", .vnone, .vnone, .vnone, .vstr "VIAF:1", .vstr "Alice", "Painting"⟩

/-- Object `obj2`, authored by the same VIAF:1 Alice. -/
def objRowC4b : ObjRow :=
  ⟨.vstr "obj2", .vstr "T2", .vnone, .vnone, .vnone, .vstr "VIAF:1", .vstr "Alice", "Map"⟩

/-- A metadata handler listing the two objects. -/
def mdC4 : MetaHandler where
  byId := fun _ => []
  allPeople := []
  allObjects := [objRowC4a, objRowC4b]
  authoredBy := fun _ => []

/-- C4 counterexample: two acquired objects share the author VIAF:1, and
`getAuthorsOfObjectsAcquiredInTimeFrame` returns TWO `Person` entries with
that id — `Person` defines neither `__eq__` nor `__hash__`, so the Python
`set` deduplicates by object identity, never by id, contradicting the
deduplicated-by-id part of the claim. -/
theorem spec_c4_counterexample :
    advTimeFrame [mdC4] [dbC4] "2024-01-01" "2024-12-31"
        = .ok [mkTimeAuthor objRowC4a, mkTimeAuthor objRowC4b] ∧
    mkTimeAuthor objRowC4a = mkTimeAuthor objRowC4b ∧
    (mkTimeAuthor objRowC4a).pid = .vstr "VIAF:1" :=
  ⟨rfl, rfl, rfl⟩

/-- C4 (amended): with parseable bounds, the method intersects the set of
object ids having SOME Acquisition row with start date on/after the window
start with the independently computed set of ids having SOME Acquisition
row with end date on/before the window end (the two sets need not come from
the same row; only Acquisition-tagged rows count; unparseable or NULL dates
never qualify), and returns ONE `Person` per metadata row whose id is in
the intersection — with no deduplication of the resulting `Person` values,
by id or otherwise. -/
theorem spec_c4_amended :
    (∀ (md : MetaHandler) (mds : List MetaHandler) (procs : List ProcDB)
        (s e : String) (sk ek : Nat),
      parseIso s = some sk → parseIso e = some ek →
      advTimeFrame (md :: mds) procs s e
        = .ok ((md.allObjects.filter (fun r =>
            (timeFrameStartedIds procs sk).contains (pyStr r.rid) &&
            (timeFrameEndedIds procs ek).contains (pyStr r.rid))).map mkTimeAuthor)) ∧
    (∀ (procs : List ProcDB) (sk : Nat) (i : String),
      (timeFrameStartedIds procs sk).contains i = true ↔
        ∃ u, u ∈ procs.flatMap unionAll ∧ u.typ = "Acquisition" ∧
          dateKeyGe u.startDate sk = true ∧ oidStr u = i) ∧
    (∀ (procs : List ProcDB) (ek : Nat) (i : String),
      (timeFrameEndedIds procs ek).contains i = true ↔
        ∃ u, u ∈ procs.flatMap unionAll ∧ u.typ = "Acquisition" ∧
          dateKeyLe u.endDate ek = true ∧ oidStr u = i) := by
  refine ⟨?_, ?_, ?_⟩
  · intro md mds procs s e sk ek hs he
    unfold advTimeFrame
    rw [hs, he]
    show Except.ok ((md.allObjects.filter (fun r =>
        ((timeFrameStartedIds procs sk).filter
          (fun i => (timeFrameEndedIds procs ek).contains i)).contains
          (pyStr r.rid))).map mkTimeAuthor) = _
    exact congrArg Except.ok (congrArg (List.map mkTimeAuthor)
      (List.filter_congr (fun r _ => contains_filter_contains _ _ _)))
  · intro procs sk i
    rw [containsMem]
    unfold timeFrameStartedIds
    constructor
    · intro h
      rcases List.mem_flatMap.mp h with ⟨db, hdb, hmem⟩
      rcases List.mem_map.mp hmem with ⟨u, hu, rfl⟩
      rcases List.mem_filter.mp hu with ⟨humem, hpred⟩
      rw [Bool.and_eq_true] at hpred
      exact ⟨u, List.mem_flatMap.mpr ⟨db, hdb, humem⟩,
        of_decide_eq_true hpred.1, hpred.2, rfl⟩
    · rintro ⟨u, hu, htyp, hge, hoid⟩
      rcases List.mem_flatMap.mp hu with ⟨db, hdb, humem⟩
      refine List.mem_flatMap.mpr ⟨db, hdb, ?_⟩
      refine List.mem_map.mpr ⟨u, List.mem_filter.mpr ⟨humem, ?_⟩, hoid⟩
      rw [Bool.and_eq_true]
      exact ⟨decide_eq_true htyp, hge⟩
  · intro procs ek i
    rw [containsMem]
    unfold timeFrameEndedIds
    constructor
    · intro h
      rcases List.mem_flatMap.mp h with ⟨db, hdb, hmem⟩
      rcases List.mem_map.mp hmem with ⟨u, hu, rfl⟩
      rcases List.mem_filter.mp hu with ⟨humem, hpred⟩
      rw [Bool.and_eq_true] at hpred
      exact ⟨u, List.mem_flatMap.mpr ⟨db, hdb, humem⟩,
        of_decide_eq_true hpred.1, hpred.2, rfl⟩
    · rintro ⟨u, hu, htyp, hle, hoid⟩
      rcases List.mem_flatMap.mp hu with ⟨db, hdb, humem⟩
      refine List.mem_flatMap.mpr ⟨db, hdb, ?_⟩
      refine List.mem_map.mpr ⟨u, List.mem_filter.mpr ⟨humem, ?_⟩, hoid⟩
      rw [Bool.and_eq_true]
      exact ⟨decide_eq_true htyp, hle⟩

/-- C4 witness: the intersection characterization evaluated on the concrete
window and stores. -/
theorem spec_c4_witness :
    advTimeFrame [mdC4] [dbC4] "2024-01-01" "2024-12-31"
      = .ok ((mdC4.allObjects.filter (fun r =>
          (timeFrameStartedIds [dbC4] 20240101).contains (pyStr r.rid) &&
          (timeFrameEndedIds [dbC4] 20241231).contains (pyStr r.rid))).map mkTimeAuthor) :=
  spec_c4_amended.1 mdC4 [] [dbC4] "2024-01-01" "2024-12-31" 20240101 20241231
    (by decide) (by decide)
